import Mathlib

/-!
Verification of the instance-lifecycle manager of `bot.py`.

The Python source is shallowly embedded: strings are `List Char`, the flat
database file is a single character list, time is passed explicitly, and the
external effects (docker commands, notifications, the store rewrite) are
recorded as an explicit event trace.  Paths that raise an uncaught Python
exception (an `IndexError` from indexing `split("|")[1]` on a line without a
separator) are modelled by `Option`, `none` standing for the raised error.
-/

namespace Botup

/-- Strings, embedded as character lists (Python `str`). -/
abbrev Str := List Char

/-- Python `s.lower()`, restricted to the ASCII range handled by `Char.toLower`. -/
def lowerStr (s : Str) : Str := s.map Char.toLower

/-- Python `s.strip()`: drop whitespace from both ends. -/
def strip (s : Str) : Str :=
  ((s.dropWhile Char.isWhitespace).reverse.dropWhile Char.isWhitespace).reverse

/-- Python `s.split(sep)` for a one-character separator. -/
def splitOn (sep : Char) : Str → List Str
  | [] => [[]]
  | c :: cs =>
    if c = sep then [] :: splitOn sep cs
    else
      match splitOn sep cs with
      | [] => [[c]]
      | f :: r => (c :: f) :: r

/-- Python `sep.join(xs)` for a one-character separator. -/
def joinSep (sep : Char) : List Str → Str
  | [] => []
  | [x] => x
  | x :: y :: t => x ++ sep :: joinSep sep (y :: t)

/-- The decimal digit character for `n < 10`. -/
def digitChar (n : Nat) : Char := Char.ofNat (48 + n)

/-- Decimal rendering of a natural number (Python `f"{n}"` for `n >= 0`),
written with explicit fuel so that it is structurally recursive. -/
def natToStrAux : Nat → Nat → Str
  | 0, _ => []
  | fuel + 1, n =>
    if n < 10 then [digitChar n]
    else natToStrAux fuel (n / 10) ++ [digitChar (n % 10)]

/-- Decimal rendering of a natural number. -/
def natToStr (n : Nat) : Str := natToStrAux (n + 1) n

/-- The value of a decimal digit character, `none` on a non-digit. -/
def digit? (c : Char) : Option Nat :=
  if c.isDigit then some (c.toNat - 48) else none

/-- Accumulating parse of a digit string. -/
def parseDigitsAux : Nat → Str → Option Nat
  | acc, [] => some acc
  | acc, c :: cs =>
    match digit? c with
    | some d => parseDigitsAux (acc * 10 + d) cs
    | none => none

/-- Parse of a non-empty, all-digit string. -/
def parseDigits : Str → Option Nat
  | [] => none
  | c :: cs => parseDigitsAux 0 (c :: cs)

/-- Python `int(s)`: strip whitespace, optional sign, decimal digits.
(Grouping underscores accepted by Python `int` are not modelled; no field
produced by the program contains them.) -/
def int? (s : Str) : Option Int :=
  match strip s with
  | [] => none
  | c :: cs =>
    if c = '-' then (parseDigits cs).map (fun n => -(n : Int))
    else if c = '+' then (parseDigits cs).map (fun n => (n : Int))
    else (parseDigits (c :: cs)).map (fun n => (n : Int))

/-! ## Configuration constants (`bot.py`, CONFIG section) -/

def SERVER_LIMIT_PER_USER : Nat := 12

/-- `INSTANCE_TTL_SECONDS = 30 * 24 * 60 * 60` (30 days). -/
def INSTANCE_TTL_SECONDS : Int := 30 * 24 * 60 * 60

/-- The `PLANS` dict: plan key to memory in gigabytes (`none` = key absent). -/
def PLANS (key : Str) : Option Nat :=
  if key = "basic".data then some 1
  else if key = "second".data then some 2
  else if key = "tritium".data then some 3
  else if key = "loudclass".data then some 4
  else if key = "growsof".data then some 5
  else if key = "akama".data then some 6
  else if key = "curious".data then some 7
  else if key = "prembasic".data then some 8
  else if key = "premsecond".data then some 9
  else if key = "premtritium".data then some 10
  else if key = "kaze".data then some 11
  else if key = "null".data then some 12
  else none

/-- The `PLAN_ROLE_REQUIREMENTS` dict accessed with `.get(key)`:
`none` both for an absent key and for a plan mapped to Python `None`. -/
def PLAN_ROLE_REQUIREMENTS (key : Str) : Option Str :=
  if key = "basic".data then none
  else if key = "second".data then some "Basic".data
  else if key = "tritium".data then some "Basic".data
  else if key = "loudclass".data then some "Basic".data
  else if key = "growsof".data then some "Basic".data
  else if key = "akama".data then some "Basic".data
  else if key = "curious".data then some "Basic".data
  else if key = "prembasic".data then some "Premium".data
  else if key = "premsecond".data then some "Premium".data
  else if key = "premtritium".data then some "Premium".data
  else if key = "kaze".data then some "Premium".data
  else if key = "null".data then some "Premium".data
  else none

/-- `plan_name.lower().replace(" ", "")`. -/
def planKey (planName : Str) : Str :=
  (lowerStr planName).filter (fun c => c ≠ ' ')

/-- `plan_to_memory_str`. -/
def plan_to_memory_str (planName : Str) : Option Str :=
  if planName = [] then none
  else (PLANS (planKey planName)).map (fun v => natToStr v ++ ['g'])

/-! ## Record store (`bot.py`, DB helpers)

The flat file `database.txt` is embedded as its content, a `Str`.
Line format: `user|container_id|ssh_command|created_ts`. -/

/-- `add_to_database`: append one line.  The timestamp `int(time.time())`
is passed explicitly as `ts`. -/
def add_to_database (content : Str) (user container_id ssh_command : Str)
    (ts : Nat) : Str :=
  content ++ user ++ '|' :: container_id ++ '|' :: ssh_command ++ '|' :: natToStr ts ++ ['\n']

/-- `read_database_lines`: split the file into lines, strip each, keep the
non-empty ones. -/
def read_database_lines (content : Str) : List Str :=
  ((splitOn '\n' content).map strip).filter (fun l => l ≠ [])

/-- `write_database_lines`: `"\n".join(lines)` plus a trailing newline when
non-empty. -/
def write_database_lines (lines : List Str) : Str :=
  joinSep '\n' lines ++ (if lines = [] then [] else ['\n'])

/-- The filter of `remove_from_database_by_container`: keep lines whose second
`|`-field differs from `container_id`.  `l.split("|")[1]` raises an
`IndexError` on a line without `|`, modelled by `none`. -/
def remove_lines (container_id : Str) : List Str → Option (List Str)
  | [] => some []
  | l :: ls =>
    match (splitOn '|' l).get? 1 with
    | none => none
    | some second =>
      match remove_lines container_id ls with
      | none => none
      | some rest => some (if second = container_id then rest else l :: rest)

/-- `remove_from_database_by_container`. -/
def remove_from_database_by_container (content : Str) (container_id : Str) :
    Option Str :=
  (remove_lines container_id (read_database_lines content)).map write_database_lines

/-- The loop body of `get_user_servers` on one line: lines whose `|`-split
has a field count other than 4 are skipped; an unparsable timestamp falls
back to 0. -/
def recordOf (user : Str) (line : Str) : Option (Str × Str × Int) :=
  match splitOn '|' line with
  | [u, cid, ssh_cmd, ts] =>
    if u = user then some (cid, ssh_cmd, (int? ts).getD 0) else none
  | _ => none

/-- `get_user_servers`: the records `(container_id, ssh_command, created_ts)`
of `user`. -/
def get_user_servers (user : Str) (content : Str) : List (Str × Str × Int) :=
  (read_database_lines content).filterMap (recordOf user)

/-- `count_user_servers`. -/
def count_user_servers (user : Str) (content : Str) : Nat :=
  (get_user_servers user content).length

/-- `find_container_for_user_by_name`: first record of `user` whose id equals
the identifier or whose ssh command contains it as a substring. -/
def find_container_for_user_by_name (content : Str) (user name : Str) :
    Option Str :=
  ((get_user_servers user content).find?
    (fun e => decide (name = e.1 ∨ name <:+: e.2.1))).map (fun e => e.1)

/-! ## Connection-string capture (`capture_ssh_session_line_from_process`) -/

/-- The acceptance test applied to a stripped, non-empty line `s`
(`bot.py` lines 197-201): `low = s.lower()`; accept when `"ssh session" in low`
or (`"ssh" in low` and (`"@" in s` or `"-p" in s`)), or when
`"forwarding" in low` or `"http" in low`. -/
def acceptLine (s : Str) : Bool :=
  (decide ("ssh session".data <:+: lowerStr s) ||
    (decide ("ssh".data <:+: lowerStr s) &&
      (decide ("@".data <:+: s) || decide ("-p".data <:+: s)))) ||
  (decide ("forwarding".data <:+: lowerStr s) || decide ("http".data <:+: lowerStr s))

/-- `capture_ssh_session_line_from_process`, on the finite list of lines the
helper process emits within the wait: skip blank lines, return the first
accepted line (stripped), `none` when the stream is exhausted (timeout). -/
def capture_ssh_session_line_from_process : List Str → Option Str
  | [] => none
  | line :: rest =>
    let s := strip line
    if s = [] then capture_ssh_session_line_from_process rest
    else if acceptLine s then some s
    else capture_ssh_session_line_from_process rest

/-! ## Role check (`user_has_required_role_for_plan`) -/

/-- `user_has_required_role_for_plan`, with the resolved member's role names
passed as `roles`.  Returns `(allowed, required_role_name_or_none)`. -/
def user_has_required_role_for_plan (roles : List Str) (planName : Str) :
    Bool × Option Str :=
  match PLAN_ROLE_REQUIREMENTS (planKey planName) with
  | none => (true, none)
  | some required =>
    if roles.any (fun r => lowerStr r = lowerStr required) then (true, some required)
    else (false, some required)

/-! ## External effects -/

/-- External effects issued by the commands and the sweeper, in order. -/
inductive Event where
  /-- `docker run -d --memory mem --privileged ... image /sbin/init` -/
  | dockerRun (image mem : Str)
  /-- `docker exec cid tmate -F` -/
  | execTmate (cid : Str)
  /-- `docker start cid` -/
  | dockerStart (cid : Str)
  /-- `docker stop cid` -/
  | dockerStop (cid : Str)
  /-- `docker restart cid` -/
  | dockerRestart (cid : Str)
  /-- `docker rm -f cid` -/
  | destroy (cid : Str)
  /-- one whole-file rewrite of the store with the given content -/
  | rewrite (content : Str)
  /-- `notify_deletion` DM to the owner -/
  | notifyOwner (user cid ssh : Str)
  /-- `notify_deletion` post to the audit log channels -/
  | notifyAudit (user cid ssh : Str)
  deriving DecidableEq, Repr

/-! ## Provisioner (`create_instance_task`) -/

/-- Outcome of `create_instance_task` as reported to the caller. -/
inductive DeployResult where
  | unknownPlan
  | permissionDenied (required : Str)
  | limitReached
  | createFailed
  | execFailed
  | captureFailed
  | success (cid ssh : Str)
  deriving DecidableEq, Repr

/-- `create_instance_task`.  Runtime interactions are passed as parameters:
`createResult` is the container id printed by `docker run` (`none` = the run
command failed), `execOk` is whether spawning `tmate -F` succeeded, and
`streamLines` is the line stream of the helper; the two timeout-bounded
capture attempts over that single stream are modelled as one scan of the
finite stream (`none` = both attempts timed out).  Returns the result, the
new store content, and the issued events. -/
def create_instance_task (content : Str) (user : Str) (roles : List Str)
    (image : Str) (planName : Str) (createResult : Option Str) (execOk : Bool)
    (streamLines : List Str) (now : Nat) :
    DeployResult × Str × List Event :=
  match plan_to_memory_str planName with
  | none => (.unknownPlan, content, [])
  | some mem =>
    if (user_has_required_role_for_plan roles planName).1 then
      if SERVER_LIMIT_PER_USER ≤ count_user_servers user content then
        (.limitReached, content, [])
      else
        match createResult with
        | none => (.createFailed, content, [.dockerRun image mem])
        | some cid =>
          if execOk then
            match capture_ssh_session_line_from_process streamLines with
            | some ssh_line =>
              let db_ssh := ssh_line ++ " | plan=".data ++ planName
              (.success cid ssh_line,
               add_to_database content user cid db_ssh now,
               [.dockerRun image mem, .execTmate cid])
            | none =>
              (.captureFailed, content,
               [.dockerRun image mem, .execTmate cid, .destroy cid])
          else
            (.execFailed, content, [.dockerRun image mem, .destroy cid])
    else
      (.permissionDenied
        (((user_has_required_role_for_plan roles planName).2).getD []),
       content, [])

/-! ## Controller (`cmd_start`, `cmd_stop`, `cmd_restart`, `cmd_regen_ssh`) -/

/-- One line of the rewrite loop shared by start/restart/regen-ssh:
if `l.split("|")[1] == cid` (an `IndexError`, modelled by `none`, when the
line has no `|`) and the line has exactly 4 fields, replace field 2 with
`ssh_line`; otherwise keep the line. -/
def update_ssh_line (cid ssh_line l : Str) : Option Str :=
  match (splitOn '|' l).get? 1 with
  | none => none
  | some second =>
    if second = cid then
      match splitOn '|' l with
      | [a, b, _, d] => some (joinSep '|' [a, b, ssh_line, d])
      | _ => some l
    else some l

/-- The full rewrite loop over the store lines. -/
def update_ssh (cid ssh_line : Str) : List Str → Option (List Str)
  | [] => some []
  | l :: ls =>
    match update_ssh_line cid ssh_line l with
    | none => none
    | some l' => (update_ssh cid ssh_line ls).map (fun rest => l' :: rest)

/-- `cmd_start`: resolve, `docker start`, re-capture (`ssh?` is the capture
outcome); on capture success rewrite the matching record's ssh field.
`none` models the uncaught `IndexError` of the rewrite loop. -/
def cmd_start (content : Str) (user name : Str) (ssh? : Option Str) :
    Option (Str × List Event) :=
  match find_container_for_user_by_name content user name with
  | none => some (content, [])
  | some cid =>
    match ssh? with
    | none => some (content, [.dockerStart cid, .execTmate cid])
    | some ssh_line =>
      (update_ssh cid ssh_line (read_database_lines content)).map
        (fun ls => (write_database_lines ls, [.dockerStart cid, .execTmate cid]))

/-- `cmd_stop`: resolve and `docker stop`; the store is never written. -/
def cmd_stop (content : Str) (user name : Str) : Str × List Event :=
  match find_container_for_user_by_name content user name with
  | none => (content, [])
  | some cid => (content, [.dockerStop cid])

/-- `cmd_restart`: as `cmd_start` with `docker restart`. -/
def cmd_restart (content : Str) (user name : Str) (ssh? : Option Str) :
    Option (Str × List Event) :=
  match find_container_for_user_by_name content user name with
  | none => some (content, [])
  | some cid =>
    match ssh? with
    | none => some (content, [.dockerRestart cid, .execTmate cid])
    | some ssh_line =>
      (update_ssh cid ssh_line (read_database_lines content)).map
        (fun ls => (write_database_lines ls, [.dockerRestart cid, .execTmate cid]))

/-- `cmd_regen_ssh`: as `cmd_start` without touching the power state. -/
def cmd_regen_ssh (content : Str) (user name : Str) (ssh? : Option Str) :
    Option (Str × List Event) :=
  match find_container_for_user_by_name content user name with
  | none => some (content, [])
  | some cid =>
    match ssh? with
    | none => some (content, [.execTmate cid])
    | some ssh_line =>
      (update_ssh cid ssh_line (read_database_lines content)).map
        (fun ls => (write_database_lines ls, [.execTmate cid]))

/-- A line that survives the write/read cycle unchanged. -/
abbrev cleanLine (l : Str) : Prop := l ≠ [] ∧ '\n' ∉ l ∧ strip l = l

/-- A record as four abstract fields; `encodeRecord` is the stored line. -/
def encodeRecord (r : Str × Str × Str × Nat) : Str :=
  r.1 ++ ('|' :: (r.2.1 ++ ('|' :: (r.2.2.1 ++ ('|' :: natToStr r.2.2.2)))))

/-- Does the string not start with a whitespace character? -/
def noLeadingWS : Str → Bool
  | [] => true
  | c :: _ => !c.isWhitespace

/-- Well-formed record: no separator or newline inside a field, and the owner
does not start with whitespace (so that the line survives `strip`). -/
abbrev wfRecord (r : Str × Str × Str × Nat) : Prop :=
  '|' ∉ r.1 ∧ '\n' ∉ r.1 ∧ '|' ∉ r.2.1 ∧ '\n' ∉ r.2.1 ∧
  '|' ∉ r.2.2.1 ∧ '\n' ∉ r.2.2.1 ∧ noLeadingWS r.1 = true

/-- Relation between an old store line and the corresponding new line after
the start/restart/regen-ssh rewrite loop: a 4-field line whose second field
is `cid` has exactly its third field replaced by `ssh_line`; every other
line is kept verbatim. -/
def updatedLineRel (cid ssh_line : Str) (l n : Str) : Prop :=
  (∃ a b c d, splitOn '|' l = [a, b, c, d] ∧ b = cid ∧
    n = joinSep '|' [a, b, ssh_line, d]) ∨
  (n = l ∧ ¬∃ a b c d, splitOn '|' l = [a, b, c, d] ∧ b = cid)

/-! ## Expiry sweeper (`cleanup_old_instances`) -/

/-- The scan step of the sweeper on one line: a well-formed (4-field) line
whose age `now - int(ts)` (0 on parse failure) is at least the TTL yields the
removal item `(user, cid, ssh_cmd)`. -/
def expired_record? (now : Int) (l : Str) : Option (Str × Str × Str) :=
  match splitOn '|' l with
  | [user, cid, ssh_cmd, ts] =>
    if INSTANCE_TTL_SECONDS ≤ now - (int? ts).getD 0 then some (user, cid, ssh_cmd)
    else none
  | _ => none

/-- The removal items collected by one sweep, in line order. -/
def scan_expired (now : Int) (lines : List Str) : List (Str × Str × Str) :=
  lines.filterMap (expired_record? now)

/-- The sweeper's batch-removal filter
`[l for l in lines if not any(l.split("|")[1] == cid ...)]`; evaluated only
when there are removal items, in which case `l.split("|")[1]` is computed for
every line and raises (`none`) on a line without `|`. -/
def remain_lines (removed : List (Str × Str × Str)) : List Str → Option (List Str)
  | [] => some []
  | l :: ls =>
    match (splitOn '|' l).get? 1 with
    | none => none
    | some second =>
      match remain_lines removed ls with
      | none => none
      | some rest =>
        some (if removed.any (fun r => second = r.2.1) then rest else l :: rest)

/-- `cleanup_old_instances`, one run at time `now`: scan all lines, issue
`docker stop` and `docker rm -f` per expired record, then (when anything was
removed) rewrite the store once and emit one owner DM and one audit post per
removed record.  `none` models the exception caught and logged by the outer
`try/except` (the store is then not rewritten and nothing is notified). -/
def cleanup_old_instances (content : Str) (now : Int) :
    Option (Str × List Event) :=
  let lines := read_database_lines content
  if lines = [] then some (content, [])
  else
    let removed := scan_expired now lines
    let stopEvs := removed.flatMap (fun r => [Event.dockerStop r.2.1, Event.destroy r.2.1])
    if removed = [] then some (content, stopEvs)
    else
      match remain_lines removed lines with
      | none => none
      | some remain =>
        let newContent := write_database_lines remain
        some (newContent,
          stopEvs ++ Event.rewrite newContent ::
            removed.flatMap (fun r =>
              [Event.notifyOwner r.1 r.2.1 r.2.2, Event.notifyAudit r.1 r.2.1 r.2.2]))

/-! ## Lemmas about `splitOn`, `joinSep` and `strip` -/

theorem splitOn_ne_nil (sep : Char) (l : Str) : splitOn sep l ≠ [] := by
  induction l with
  | nil => simp [splitOn]
  | cons c cs ih =>
    simp only [splitOn]
    split
    · simp
    · cases h : splitOn sep cs with
      | nil => exact absurd h ih
      | cons f r => simp

theorem splitOn_append_sep (sep : Char) (a b : Str) :
    splitOn sep (a ++ sep :: b) = splitOn sep a ++ splitOn sep b := by
  induction a with
  | nil => simp [splitOn]
  | cons c cs ih =>
    by_cases hc : c = sep
    · subst hc
      simp [splitOn, ih]
    · cases h : splitOn sep cs with
      | nil => exact absurd h (splitOn_ne_nil sep cs)
      | cons f r =>
        simp only [List.cons_append, splitOn, if_neg hc, List.append_eq, ih, h]

theorem splitOn_eq_single (sep : Char) (l : Str) (h : sep ∉ l) :
    splitOn sep l = [l] := by
  induction l with
  | nil => rfl
  | cons c cs ih =>
    have hc : c ≠ sep := by intro he; exact h (he ▸ List.mem_cons_self c cs)
    have hcs : sep ∉ cs := fun hm => h (List.mem_cons_of_mem c hm)
    simp only [splitOn, if_neg hc, ih hcs]

theorem splitOn_length (sep : Char) (l : Str) :
    (splitOn sep l).length = l.count sep + 1 := by
  induction l with
  | nil => simp [splitOn]
  | cons c cs ih =>
    by_cases hc : c = sep
    · subst hc
      simp [splitOn, ih, List.count_cons]
    · cases h : splitOn sep cs with
      | nil => exact absurd h (splitOn_ne_nil sep cs)
      | cons f r =>
        have := ih
        rw [h] at this
        simp only [splitOn, if_neg hc, h, List.length_cons] at this ⊢
        simp [List.count_cons, hc, this]

theorem splitOn_joinSep (sep : Char) (ls : List Str) (hne : ls ≠ [])
    (h : ∀ l ∈ ls, sep ∉ l) :
    splitOn sep (joinSep sep ls) = ls := by
  induction ls with
  | nil => exact absurd rfl hne
  | cons x xs ih =>
    cases xs with
    | nil =>
      simp only [joinSep]
      exact splitOn_eq_single sep x (h x (List.mem_cons_self x []))
    | cons y t =>
      simp only [joinSep, splitOn_append_sep]
      rw [splitOn_eq_single sep x (h x (List.mem_cons_self x _)),
        ih (by simp) (fun l hl => h l (List.mem_cons_of_mem x hl))]
      rfl

theorem dropWhile_eq_self_of_head (p : Char → Bool) (l : Str)
    (h : ∀ c, l.head? = some c → p c = false) : l.dropWhile p = l := by
  cases l with
  | nil => rfl
  | cons c cs =>
    have := h c rfl
    simp [List.dropWhile_cons, this]

theorem strip_eq_self (l : Str)
    (h1 : ∀ c, l.head? = some c → c.isWhitespace = false)
    (h2 : ∀ c, l.getLast? = some c → c.isWhitespace = false) :
    strip l = l := by
  unfold strip
  rw [dropWhile_eq_self_of_head _ l h1,
    dropWhile_eq_self_of_head _ l.reverse (by
      intro c hc
      rw [List.head?_reverse] at hc
      exact h2 c hc),
    List.reverse_reverse]

theorem count_dropWhile (p : Char → Bool) (a : Char) (l : Str)
    (h : p a = false) : (l.dropWhile p).count a = l.count a := by
  conv_rhs => rw [← List.takeWhile_append_dropWhile (p := p) (l := l)]
  rw [List.count_append]
  have : (l.takeWhile p).count a = 0 := by
    rw [List.count_eq_zero]
    intro hm
    exact absurd (List.mem_takeWhile_imp hm) (by simp [h])
  omega

theorem count_strip (a : Char) (l : Str) (h : a.isWhitespace = false) :
    (strip l).count a = l.count a := by
  unfold strip
  rw [List.count_reverse, count_dropWhile _ _ _ h, List.count_reverse,
    count_dropWhile _ _ _ h]

theorem strip_ne_nil (a : Char) (l : Str) (hm : a ∈ l)
    (h : a.isWhitespace = false) : strip l ≠ [] := by
  intro he
  have h1 : (strip l).count a = l.count a := count_strip a l h
  rw [he] at h1
  simp only [List.count_nil] at h1
  have := List.count_pos_iff.mpr hm
  omega

/-! ## Lemmas about decimal rendering and `int?` -/

theorem natToStrAux_fuel (n : Nat) : ∀ fuel fuel', n < fuel → n < fuel' →
    natToStrAux fuel n = natToStrAux fuel' n := by
  induction n using Nat.strong_induction_on with
  | _ n ih =>
    intro fuel fuel' h h'
    match fuel, fuel' with
    | f + 1, f' + 1 =>
      simp only [natToStrAux]
      by_cases h10 : n < 10
      · simp [h10]
      · have hdiv : n / 10 < n := Nat.div_lt_self (by omega) (by omega)
        simp only [if_neg h10]
        rw [ih (n / 10) hdiv f f' (by omega) (by omega)]

theorem natToStr_unfold (n : Nat) :
    natToStr n = if n < 10 then [digitChar n]
      else natToStr (n / 10) ++ [digitChar (n % 10)] := by
  by_cases h10 : n < 10
  · simp [natToStr, natToStrAux, h10]
  · have hdiv : n / 10 < n := Nat.div_lt_self (by omega) (by omega)
    simp only [natToStr, natToStrAux, if_neg h10]
    rw [natToStrAux_fuel (n / 10) n (n / 10 + 1) (by omega) (by omega)]
    simp only [natToStrAux]

theorem digitChar_spec (d : Nat) (h : d < 10) :
    digit? (digitChar d) = some d ∧ (digitChar d).isWhitespace = false ∧
      digitChar d ≠ '|' ∧ digitChar d ≠ '\n' ∧ digitChar d ≠ '-' ∧
      digitChar d ≠ '+' := by
  interval_cases d <;> exact ⟨rfl, rfl, by decide, by decide, by decide, by decide⟩

theorem natToStr_chars (n : Nat) :
    ∀ c ∈ natToStr n, ∃ d, d < 10 ∧ c = digitChar d := by
  induction n using Nat.strong_induction_on with
  | _ n ih =>
    intro c hc
    rw [natToStr_unfold] at hc
    by_cases h10 : n < 10
    · rw [if_pos h10] at hc
      simp only [List.mem_singleton] at hc
      exact ⟨n, h10, hc⟩
    · have hdiv : n / 10 < n := Nat.div_lt_self (by omega) (by omega)
      rw [if_neg h10] at hc
      rcases List.mem_append.mp hc with hc | hc
      · exact ih (n / 10) hdiv c hc
      · simp only [List.mem_singleton] at hc
        exact ⟨n % 10, Nat.mod_lt _ (by omega), hc⟩

theorem natToStr_ne_nil (n : Nat) : natToStr n ≠ [] := by
  rw [natToStr_unfold]
  by_cases h10 : n < 10 <;> simp [h10]

theorem parseDigitsAux_append (s : Str) : ∀ acc t,
    parseDigitsAux acc (s ++ t) =
      match parseDigitsAux acc s with
      | some m => parseDigitsAux m t
      | none => none := by
  induction s with
  | nil => intro acc t; rfl
  | cons c cs ih =>
    intro acc t
    simp only [List.cons_append, parseDigitsAux]
    cases digit? c with
    | none => rfl
    | some d => exact ih (acc * 10 + d) t

theorem parseDigitsAux_natToStr (n : Nat) : ∀ acc,
    parseDigitsAux acc (natToStr n) =
      some (acc * 10 ^ (natToStr n).length + n) := by
  induction n using Nat.strong_induction_on with
  | _ n ih =>
    intro acc
    rw [natToStr_unfold]
    by_cases h10 : n < 10
    · rw [if_pos h10]
      simp only [parseDigitsAux, (digitChar_spec n h10).1, List.length_singleton]
      norm_num
    · have hdiv : n / 10 < n := Nat.div_lt_self (by omega) (by omega)
      rw [if_neg h10, parseDigitsAux_append]
      rw [ih (n / 10) hdiv acc]
      simp only [parseDigitsAux, (digitChar_spec (n % 10) (Nat.mod_lt _ (by omega))).1]
      rw [List.length_append, List.length_singleton, pow_succ]
      congr 1
      have hmod : n / 10 * 10 + n % 10 = n := Nat.div_add_mod n 10 ▸ by omega
      calc (acc * 10 ^ (natToStr (n / 10)).length + n / 10) * 10 + n % 10
          = acc * (10 ^ (natToStr (n / 10)).length * 10) + (n / 10 * 10 + n % 10) := by ring
        _ = acc * (10 ^ (natToStr (n / 10)).length * 10) + n := by rw [hmod]

theorem parseDigits_natToStr (n : Nat) : parseDigits (natToStr n) = some n := by
  cases h : natToStr n with
  | nil => exact absurd h (natToStr_ne_nil n)
  | cons c cs =>
    have := parseDigitsAux_natToStr n 0
    rw [h] at this
    simp only [parseDigits, this]
    norm_num

theorem head?_mem {c : Char} {l : Str} (h : l.head? = some c) : c ∈ l := by
  cases l with
  | nil => simp at h
  | cons a t =>
    simp only [List.head?_cons, Option.some.injEq] at h
    simp [h]

theorem getLast?_mem {c : Char} {l : Str} (h : l.getLast? = some c) : c ∈ l := by
  rw [← List.head?_reverse] at h
  exact List.mem_reverse.mp (head?_mem h)

theorem strip_natToStr (n : Nat) : strip (natToStr n) = natToStr n := by
  apply strip_eq_self
  · intro c hc
    obtain ⟨d, hd, rfl⟩ := natToStr_chars n c (head?_mem hc)
    exact (digitChar_spec d hd).2.1
  · intro c hc
    obtain ⟨d, hd, rfl⟩ := natToStr_chars n c (getLast?_mem hc)
    exact (digitChar_spec d hd).2.1

theorem int?_natToStr (n : Nat) : int? (natToStr n) = some (n : Int) := by
  unfold int?
  rw [strip_natToStr]
  cases h : natToStr n with
  | nil => exact absurd h (natToStr_ne_nil n)
  | cons c cs =>
    have hm : c ∈ natToStr n := by rw [h]; exact List.mem_cons_self c cs
    obtain ⟨d, hd, rfl⟩ := natToStr_chars n c hm
    have hspec := digitChar_spec d hd
    simp only [if_neg hspec.2.2.2.2.1, if_neg hspec.2.2.2.2.2]
    rw [← h, parseDigits_natToStr]
    rfl

theorem pipe_not_mem_natToStr (n : Nat) : '|' ∉ natToStr n := by
  intro hm
  obtain ⟨d, hd, he⟩ := natToStr_chars n '|' hm
  exact (digitChar_spec d hd).2.2.1 he.symm

theorem newline_not_mem_natToStr (n : Nat) : '\n' ∉ natToStr n := by
  intro hm
  obtain ⟨d, hd, he⟩ := natToStr_chars n '\n' hm
  exact (digitChar_spec d hd).2.2.2.1 he.symm

/-! ## Lemmas about the record store -/

theorem read_write_database (ls : List Str) (h : ∀ l ∈ ls, cleanLine l) :
    read_database_lines (write_database_lines ls) = ls := by
  cases ls with
  | nil => rfl
  | cons x xs =>
    unfold write_database_lines read_database_lines
    rw [if_neg (by simp)]
    rw [show (['\n'] : Str) = '\n' :: [] from rfl, splitOn_append_sep,
      splitOn_joinSep '\n' (x :: xs) (by simp) (fun l hl => (h l hl).2.1)]
    rw [List.map_append, List.filter_append]
    have h1 : (x :: xs).map strip = x :: xs := by
      conv_rhs => rw [← List.map_id (x :: xs)]
      exact List.map_congr_left (fun a ha => (h a ha).2.2)
    rw [h1, List.filter_eq_self.mpr (by
      intro a ha
      simpa using (h a ha).1)]
    simp [splitOn, strip]

theorem read_append_line (content l : Str)
    (hend : content = [] ∨ ∃ c, content = c ++ ['\n']) (hnl : '\n' ∉ l) :
    read_database_lines (content ++ (l ++ ['\n'])) =
      read_database_lines content ++
        (if strip l = [] then [] else [strip l]) := by
  have hstripnil : strip ([] : Str) = [] := rfl
  have hsplit_l : splitOn '\n' (l ++ ['\n']) = [l, []] := by
    rw [show (['\n'] : Str) = '\n' :: [] from rfl, splitOn_append_sep,
      splitOn_eq_single '\n' l hnl]
    rfl
  rcases hend with rfl | ⟨c, rfl⟩
  · simp only [List.nil_append]
    unfold read_database_lines
    rw [hsplit_l]
    by_cases hsl : strip l = [] <;>
      simp [splitOn, hstripnil, hsl]
  · unfold read_database_lines
    rw [List.append_assoc, show (['\n'] : Str) ++ (l ++ ['\n']) =
        '\n' :: (l ++ ['\n']) from rfl,
      splitOn_append_sep, hsplit_l,
      show (c ++ ['\n'] : Str) = c ++ '\n' :: [] from rfl, splitOn_append_sep]
    by_cases hsl : strip l = [] <;>
      simp [splitOn, hstripnil, hsl, List.filter_append, List.map_append]

theorem splitOn_encodeRecord (r : Str × Str × Str × Nat)
    (h1 : '|' ∉ r.1) (h2 : '|' ∉ r.2.1) (h3 : '|' ∉ r.2.2.1) :
    splitOn '|' (encodeRecord r) = [r.1, r.2.1, r.2.2.1, natToStr r.2.2.2] := by
  unfold encodeRecord
  rw [splitOn_append_sep, splitOn_append_sep, splitOn_append_sep,
    splitOn_eq_single '|' r.1 h1, splitOn_eq_single '|' r.2.1 h2,
    splitOn_eq_single '|' r.2.2.1 h3,
    splitOn_eq_single '|' (natToStr r.2.2.2) (pipe_not_mem_natToStr _)]
  rfl

theorem encodeRecord_ne_nil (r : Str × Str × Str × Nat) :
    encodeRecord r ≠ [] := by
  unfold encodeRecord
  intro h
  have := congrArg List.length h
  simp at this

theorem newline_not_mem_encodeRecord (r : Str × Str × Str × Nat)
    (h1 : '\n' ∉ r.1) (h2 : '\n' ∉ r.2.1) (h3 : '\n' ∉ r.2.2.1) :
    '\n' ∉ encodeRecord r := by
  unfold encodeRecord
  intro hm
  rcases List.mem_append.mp hm with hm | hm
  · exact h1 hm
  rcases List.mem_cons.mp hm with hm | hm
  · exact absurd hm (by decide)
  rcases List.mem_append.mp hm with hm | hm
  · exact h2 hm
  rcases List.mem_cons.mp hm with hm | hm
  · exact absurd hm (by decide)
  rcases List.mem_append.mp hm with hm | hm
  · exact h3 hm
  rcases List.mem_cons.mp hm with hm | hm
  · exact absurd hm (by decide)
  · exact newline_not_mem_natToStr _ hm

theorem getLast?_cons_of_ne_nil (a : Char) (l : Str) (h : l ≠ []) :
    (a :: l).getLast? = l.getLast? := by
  rw [show (a :: l) = [a] ++ l from rfl, List.getLast?_append_of_ne_nil _ h]

theorem noLeadingWS_head {s : Str} {a : Char} (h : noLeadingWS s = true)
    (ha : s.head? = some a) : a.isWhitespace = false := by
  cases s with
  | nil => simp at ha
  | cons c t =>
    simp only [List.head?_cons, Option.some.injEq] at ha
    subst ha
    simpa [noLeadingWS] using h

theorem strip_encodeRecord (r : Str × Str × Str × Nat) (h : wfRecord r) :
    strip (encodeRecord r) = encodeRecord r := by
  apply strip_eq_self
  · intro c hc
    unfold encodeRecord at hc
    rw [List.head?_append] at hc
    cases ho : r.1.head? with
    | some a =>
      rw [ho, Option.or_some] at hc
      injection hc with hac
      subst hac
      exact noLeadingWS_head h.2.2.2.2.2.2 ho
    | none =>
      rw [ho, Option.none_or] at hc
      simp only [List.head?_cons, Option.some.injEq] at hc
      subst hc
      decide
  · intro c hc
    unfold encodeRecord at hc
    rw [List.getLast?_append_of_ne_nil _ (by simp),
      getLast?_cons_of_ne_nil _ _ (by simp),
      List.getLast?_append_of_ne_nil _ (by simp),
      getLast?_cons_of_ne_nil _ _ (by simp),
      List.getLast?_append_of_ne_nil _ (by simp),
      getLast?_cons_of_ne_nil _ _ (natToStr_ne_nil _)] at hc
    obtain ⟨d, hd, rfl⟩ := natToStr_chars _ c (getLast?_mem hc)
    exact (digitChar_spec d hd).2.1

theorem cleanLine_encodeRecord (r : Str × Str × Str × Nat) (h : wfRecord r) :
    cleanLine (encodeRecord r) :=
  ⟨encodeRecord_ne_nil r,
   newline_not_mem_encodeRecord r h.2.1 h.2.2.2.1 h.2.2.2.2.2.1,
   strip_encodeRecord r h⟩

/-! ## Claims -/

/-- C1 (code bug): the spec's deploy scenario — owner `"alice"`, plan
`"basic"`, runtime instance id `"c1"`, capture stream line
`"ssh session: alice@host -p 2222"`.  The deploy succeeds and appends the
line `alice|c1|ssh session: alice@host -p 2222 | plan=basic|<ts>`, but that
line splits into 5 `|`-fields (the code itself embeds `" | plan=basic"` into
the stored connection string), so `get_user_servers "alice"` skips it and
returns `[]` instead of the one record the claim (and the code's own
`/list`, quota and lookup features) expect. -/
theorem c1_deploy_scenario_code_bug :
    create_instance_task [] "alice".data [] "img".data "basic".data
        (some "c1".data) true ["ssh session: alice@host -p 2222".data]
        1700000000 =
      (.success "c1".data "ssh session: alice@host -p 2222".data,
       "alice|c1|ssh session: alice@host -p 2222 | plan=basic|1700000000\n".data,
       [.dockerRun "img".data "1g".data, .execTmate "c1".data]) ∧
    (splitOn '|'
      "alice|c1|ssh session: alice@host -p 2222 | plan=basic|1700000000".data).length
      = 5 ∧
    get_user_servers "alice".data
      "alice|c1|ssh session: alice@host -p 2222 | plan=basic|1700000000\n".data
      = [] := by
  refine ⟨?_, ?_, ?_⟩ <;> decide

/-- C2: if the instance is created (`docker run` returned `cid`, the tmate
exec spawned) but the capture of the helper stream yields no line, the deploy
reports `captureFailed`, leaves the store content identical, and issues
`docker rm -f cid`. -/
theorem c2_capture_failure_atomic (content user : Str) (roles : List Str)
    (image planName mem cid : Str) (streamLines : List Str) (now : Nat)
    (hplan : plan_to_memory_str planName = some mem)
    (hrole : (user_has_required_role_for_plan roles planName).1 = true)
    (hquota : count_user_servers user content < SERVER_LIMIT_PER_USER)
    (hcap : capture_ssh_session_line_from_process streamLines = none) :
    create_instance_task content user roles image planName (some cid) true
        streamLines now =
      (.captureFailed, content,
       [.dockerRun image mem, .execTmate cid, .destroy cid]) := by
  unfold create_instance_task
  rw [hplan]
  simp only [hrole, if_true, Nat.not_le.mpr hquota, if_false, hcap]

/-- C2 witness: a concrete failed capture, run through the theorem. -/
theorem c2_capture_failure_atomic_witness :
    create_instance_task [] "alice".data [] "img".data "basic".data
        (some "c1".data) true ["noise".data] 5 =
      (.captureFailed, [],
       [.dockerRun "img".data "1g".data, .execTmate "c1".data,
        .destroy "c1".data]) :=
  c2_capture_failure_atomic [] "alice".data [] "img".data "basic".data
    "1g".data "c1".data ["noise".data] 5 (by decide) (by decide) (by decide)
    (by decide)

theorem user_has_required_role_snd (roles : List Str) (planName : Str) :
    (user_has_required_role_for_plan roles planName).2 =
      PLAN_ROLE_REQUIREMENTS (planKey planName) := by
  unfold user_has_required_role_for_plan
  cases PLAN_ROLE_REQUIREMENTS (planKey planName) with
  | none => rfl
  | some required =>
    show (if (roles.any fun r => decide (lowerStr r = lowerStr required)) = true
        then ((true : Bool), some required)
        else ((false : Bool), some required)).2 = some required
    split <;> rfl

/-- C6: access is granted iff the plan requires no capability or the user's
role set contains a case-insensitive match for the required capability; on
denial the required capability name is returned.  In particular the
`"Premium"`-gated plan `kaze` denies `{Basic}` and admits `{Basic, Premium}`
and `{premium}`. -/
theorem c6_capability_gate :
    (∀ (planName : Str) (roles : List Str),
      (user_has_required_role_for_plan roles planName).1 = true ↔
        (PLAN_ROLE_REQUIREMENTS (planKey planName) = none ∨
         ∃ required, PLAN_ROLE_REQUIREMENTS (planKey planName) = some required ∧
           ∃ r ∈ roles, lowerStr r = lowerStr required)) ∧
    (∀ (planName : Str) (roles : List Str),
      (user_has_required_role_for_plan roles planName).1 = false →
        (user_has_required_role_for_plan roles planName).2 =
          PLAN_ROLE_REQUIREMENTS (planKey planName) ∧
        PLAN_ROLE_REQUIREMENTS (planKey planName) ≠ none) ∧
    (user_has_required_role_for_plan ["Basic".data] "kaze".data).1 = false ∧
    (user_has_required_role_for_plan ["Basic".data, "Premium".data]
      "kaze".data).1 = true ∧
    (user_has_required_role_for_plan ["premium".data] "kaze".data).1 = true := by
  refine ⟨?_, ?_, by decide, by decide, by decide⟩
  · intro planName roles
    unfold user_has_required_role_for_plan
    cases hreq : PLAN_ROLE_REQUIREMENTS (planKey planName) with
    | none => simp
    | some required =>
      by_cases hany : ∃ r ∈ roles, lowerStr r = lowerStr required
      · have hb : (roles.any fun r => decide (lowerStr r = lowerStr required))
            = true := by
          rcases hany with ⟨r, hr, hl⟩
          exact List.any_eq_true.mpr ⟨r, hr, decide_eq_true hl⟩
        simp [hb, hany]
      · have hb : (roles.any fun r => decide (lowerStr r = lowerStr required))
            = false := by
          rw [Bool.eq_false_iff]
          intro hc
          rcases List.any_eq_true.mp hc with ⟨r, hr, hp⟩
          exact hany ⟨r, hr, of_decide_eq_true hp⟩
        simp [hb, hany]
  · intro planName roles hfalse
    refine ⟨user_has_required_role_snd roles planName, ?_⟩
    intro hnone
    unfold user_has_required_role_for_plan at hfalse
    rw [hnone] at hfalse
    simp at hfalse

/-- C6 witness: the denial branch of the theorem at a concrete input. -/
theorem c6_capability_gate_witness :
    (user_has_required_role_for_plan ["Basic".data] "kaze".data).2 =
      PLAN_ROLE_REQUIREMENTS (planKey "kaze".data) ∧
    PLAN_ROLE_REQUIREMENTS (planKey "kaze".data) ≠ none :=
  c6_capability_gate.2.1 "kaze".data ["Basic".data] (by decide)

/-- C7: `find_container_for_user_by_name` returns the id of a record owned
by the given user whose id equals the identifier or whose connection string
contains it; it returns `none` iff no record of that owner matches — records
of other owners are never consulted (concrete cross-owner instance
included). -/
theorem c7_find_resolution :
    (∀ (content user name cid : Str),
      find_container_for_user_by_name content user name = some cid →
        ∃ e ∈ get_user_servers user content,
          e.1 = cid ∧ (name = e.1 ∨ name <:+: e.2.1)) ∧
    (∀ (content user name : Str),
      find_container_for_user_by_name content user name = none ↔
        ∀ e ∈ get_user_servers user content,
          ¬(name = e.1 ∨ name <:+: e.2.1)) ∧
    find_container_for_user_by_name "alice|c1|sshA|0\nbob|c2|sshB|0\n".data
      "alice".data "c2".data = none ∧
    find_container_for_user_by_name "alice|c1|sshA|0\nbob|c2|sshB|0\n".data
      "bob".data "c2".data = some "c2".data := by
  refine ⟨?_, ?_, by decide, by decide⟩
  · intro content user name cid hfind
    unfold find_container_for_user_by_name at hfind
    rcases Option.map_eq_some'.mp hfind with ⟨e, hfe, hcid⟩
    have hp := List.find?_some hfe
    simp only [decide_eq_true_eq] at hp
    exact ⟨e, List.mem_of_find?_eq_some hfe, hcid, hp⟩
  · intro content user name
    unfold find_container_for_user_by_name
    rw [Option.map_eq_none']
    rw [List.find?_eq_none]
    constructor
    · intro h e he
      have := h e he
      simpa using this
    · intro h e he
      simpa using h e he

/-- C7 witness: the `none` characterisation at a concrete input. -/
theorem c7_find_resolution_witness :
    find_container_for_user_by_name "alice|c1|sshA|0\n".data "alice".data
        "zzz".data = none :=
  (c7_find_resolution.2.1 "alice|c1|sshA|0\n".data "alice".data
    "zzz".data).mpr (by decide)

/-- C8: a non-empty (stripped) line is accepted exactly when it
case-insensitively contains `"ssh session"`, or contains `"ssh"`
(case-insensitively) together with `"@"` or `"-p"` (these two checked on the
original line, as in the source), or case-insensitively contains
`"forwarding"` or `"http"`; the first accepted line of the stream is
returned and scanning stops there regardless of any later lines. -/
theorem c8_accept_first_match :
    (∀ s : Str, acceptLine s = true ↔
      ("ssh session".data <:+: lowerStr s ∨
       ("ssh".data <:+: lowerStr s ∧ ("@".data <:+: s ∨ "-p".data <:+: s)) ∨
       "forwarding".data <:+: lowerStr s ∨ "http".data <:+: lowerStr s)) ∧
    (∀ (pre : List Str) (line : Str) (rest rest' : List Str),
      (∀ l ∈ pre, strip l = [] ∨ acceptLine (strip l) = false) →
      strip line ≠ [] → acceptLine (strip line) = true →
      capture_ssh_session_line_from_process (pre ++ line :: rest) =
        some (strip line) ∧
      capture_ssh_session_line_from_process (pre ++ line :: rest) =
        capture_ssh_session_line_from_process (pre ++ line :: rest')) := by
  constructor
  · intro s
    unfold acceptLine
    simp only [Bool.or_eq_true, Bool.and_eq_true, decide_eq_true_eq]
    tauto
  · intro pre line rest rest' hpre hne hacc
    have key : ∀ (tail : List Str),
        capture_ssh_session_line_from_process (pre ++ line :: tail) =
          some (strip line) := by
      intro tail
      induction pre with
      | nil =>
        simp only [List.nil_append, capture_ssh_session_line_from_process]
        rw [if_neg hne, if_pos hacc]
      | cons p ps ih =>
        have hp := hpre p (List.mem_cons_self p ps)
        have hps : ∀ l ∈ ps, strip l = [] ∨ acceptLine (strip l) = false :=
          fun l hl => hpre l (List.mem_cons_of_mem p hl)
        simp only [List.cons_append, capture_ssh_session_line_from_process]
        by_cases hpe : strip p = []
        · rw [if_pos hpe]
          exact ih hps
        · have hacc_p : acceptLine (strip p) = false := by
            rcases hp with hp | hp
            · exact absurd hp hpe
            · exact hp
          rw [if_neg hpe, if_neg (by simp [hacc_p])]
          exact ih hps
    exact ⟨key rest, (key rest).trans (key rest').symm⟩

/-- C8 witness: first accepted line wins at a concrete stream. -/
theorem c8_accept_first_match_witness :
    capture_ssh_session_line_from_process
        ["banner".data, "  ".data, "ssh session: x@y -p 1".data,
         "later http line".data] = some "ssh session: x@y -p 1".data :=
  (c8_accept_first_match.2 ["banner".data, "  ".data]
    "ssh session: x@y -p 1".data ["later http line".data] []
    (by decide) (by decide) (by decide)).1

/-! ## Claims C3 and C4 -/

theorem add_to_database_eq (content user cid ssh : Str) (ts : Nat) :
    add_to_database content user cid ssh ts =
      content ++ (encodeRecord (user, cid, ssh, ts) ++ ['\n']) := by
  simp [add_to_database, encodeRecord]

theorem recordOf_length_ne (u line : Str)
    (h : (splitOn '|' line).length ≠ 4) : recordOf u line = none := by
  unfold recordOf
  cases hsp : splitOn '|' line with
  | nil => rfl
  | cons a t1 =>
    cases t1 with
    | nil => rfl
    | cons b t2 =>
      cases t2 with
      | nil => rfl
      | cons c t3 =>
        cases t3 with
        | nil => rfl
        | cons d t4 =>
          cases t4 with
          | nil => rw [hsp] at h; simp at h
          | cons e t5 => rfl

theorem recordOf_encode (u : Str) (r : Str × Str × Str × Nat) (h : wfRecord r) :
    recordOf u (encodeRecord r) =
      if r.1 = u then some (r.2.1, r.2.2.1, (r.2.2.2 : Int)) else none := by
  unfold recordOf
  rw [splitOn_encodeRecord r h.1 h.2.2.1 h.2.2.2.2.1]
  simp [int?_natToStr]

theorem filterMap_recordOf_encode (u : Str)
    (records : List (Str × Str × Str × Nat))
    (hwf : ∀ r ∈ records, wfRecord r) :
    records.filterMap (recordOf u ∘ encodeRecord) =
      (records.filter (fun r => r.1 = u)).map
        (fun r => (r.2.1, r.2.2.1, (r.2.2.2 : Int))) := by
  induction records with
  | nil => rfl
  | cons r rs ih =>
    have hwfr := hwf r (List.mem_cons_self r rs)
    have hwfs : ∀ x ∈ rs, wfRecord x :=
      fun x hx => hwf x (List.mem_cons_of_mem r hx)
    simp only [List.filterMap_cons, Function.comp_apply,
      recordOf_encode u r hwfr, List.filter_cons]
    by_cases hru : r.1 = u
    · simp [hru, ih hwfs]
    · simp [hru, ih hwfs]

/-- C3: writing well-formed records and reloading yields the very same
lines, and per owner exactly the records with that owner, with identical
field values; a stored line whose field count differs from 4 is silently
skipped by the record reader without affecting adjacent well-formed lines. -/
theorem c3_roundtrip_persistence :
    (∀ records : List (Str × Str × Str × Nat), (∀ r ∈ records, wfRecord r) →
      read_database_lines (write_database_lines (records.map encodeRecord)) =
        records.map encodeRecord ∧
      ∀ u, get_user_servers u
          (write_database_lines (records.map encodeRecord)) =
        (records.filter (fun r => r.1 = u)).map
          (fun r => (r.2.1, r.2.2.1, (r.2.2.2 : Int)))) ∧
    (∀ (pre post : List Str) (bad u : Str),
      (∀ l ∈ pre, cleanLine l) → (∀ l ∈ post, cleanLine l) → cleanLine bad →
      (splitOn '|' bad).length ≠ 4 →
      get_user_servers u (write_database_lines (pre ++ bad :: post)) =
        get_user_servers u (write_database_lines (pre ++ post))) := by
  constructor
  · intro records hwf
    have hclean : ∀ l ∈ records.map encodeRecord, cleanLine l := by
      intro l hl
      rcases List.mem_map.mp hl with ⟨r, hr, rfl⟩
      exact cleanLine_encodeRecord r (hwf r hr)
    have hread := read_write_database (records.map encodeRecord) hclean
    refine ⟨hread, fun u => ?_⟩
    unfold get_user_servers
    rw [hread, List.filterMap_map]
    exact filterMap_recordOf_encode u records hwf
  · intro pre post bad u hpre hpost hbad hlen
    have hclean1 : ∀ l ∈ pre ++ bad :: post, cleanLine l := by
      intro l hl
      rcases List.mem_append.mp hl with hl | hl
      · exact hpre l hl
      rcases List.mem_cons.mp hl with rfl | hl
      · exact hbad
      · exact hpost l hl
    have hclean2 : ∀ l ∈ pre ++ post, cleanLine l := by
      intro l hl
      rcases List.mem_append.mp hl with hl | hl
      · exact hpre l hl
      · exact hpost l hl
    unfold get_user_servers
    rw [read_write_database _ hclean1, read_write_database _ hclean2]
    simp [List.filterMap_cons, recordOf_length_ne u bad hlen]

/-- C3 witness: a two-record store round-trips, with an extra malformed line
ignored. -/
theorem c3_roundtrip_persistence_witness :
    get_user_servers "alice".data
        (write_database_lines
          ([("alice".data, "c1".data, "sA".data, 7),
            ("bob".data, "c2".data, "sB".data, 9)].map encodeRecord)) =
      [("c1".data, "sA".data, 7)] ∧
    get_user_servers "alice".data
        (write_database_lines
          ["alice|c1|sA|7".data, "bad line".data, "bob|c2|sB|9".data]) =
      get_user_servers "alice".data
        (write_database_lines ["alice|c1|sA|7".data, "bob|c2|sB|9".data]) := by
  constructor
  · have := (c3_roundtrip_persistence.1
      [("alice".data, "c1".data, "sA".data, 7),
       ("bob".data, "c2".data, "sB".data, 9)] (by decide)).2 "alice".data
    exact this.trans (by decide)
  · exact c3_roundtrip_persistence.2 ["alice|c1|sA|7".data] ["bob|c2|sB|9".data]
      "bad line".data "alice".data (by decide) (by decide) (by decide)
      (by decide)

/-- C4: appending a record whose connection string contains `|` stores a
line with more than four fields, and reads of every owner's records are as
if the record were never stored. -/
theorem c4_pipe_corruption (content user cid ssh : Str) (ts : Nat)
    (hend : content = [] ∨ ∃ c, content = c ++ ['\n'])
    (hpu : '|' ∉ user) (hpc : '|' ∉ cid) (hps : '|' ∈ ssh)
    (hnu : '\n' ∉ user) (hnc : '\n' ∉ cid) (hns : '\n' ∉ ssh) :
    4 < (splitOn '|' (strip (encodeRecord (user, cid, ssh, ts)))).length ∧
    ∀ u, get_user_servers u (add_to_database content user cid ssh ts) =
      get_user_servers u content := by
  have hpipe_mem : '|' ∈ encodeRecord (user, cid, ssh, ts) := by
    unfold encodeRecord
    simp
  have hcount : 4 ≤ (encodeRecord (user, cid, ssh, ts)).count '|' := by
    have h1 : user.count '|' = 0 := List.count_eq_zero.mpr hpu
    have h2 : cid.count '|' = 0 := List.count_eq_zero.mpr hpc
    have h3 : 0 < ssh.count '|' := List.count_pos_iff.mpr hps
    unfold encodeRecord
    simp [List.count_append, List.count_cons, h1, h2]
    omega
  have hlen : 4 < (splitOn '|'
      (strip (encodeRecord (user, cid, ssh, ts)))).length := by
    rw [splitOn_length, count_strip _ _ (by decide)]
    omega
  refine ⟨hlen, fun u => ?_⟩
  rw [add_to_database_eq]
  unfold get_user_servers
  rw [read_append_line content _ hend
    (newline_not_mem_encodeRecord (user, cid, ssh, ts) hnu hnc hns)]
  rw [if_neg (strip_ne_nil '|' _ hpipe_mem (by decide))]
  rw [List.filterMap_append]
  have : recordOf u (strip (encodeRecord (user, cid, ssh, ts))) = none :=
    recordOf_length_ne u _ (by omega)
  simp [this]

/-- C4 witness: the deploy-produced line at a concrete input. -/
theorem c4_pipe_corruption_witness :
    4 < (splitOn '|' (strip (encodeRecord
        ("alice".data, "c1".data, "s | plan=basic".data, 7)))).length ∧
    get_user_servers "alice".data
        (add_to_database [] "alice".data "c1".data "s | plan=basic".data 7) =
      get_user_servers "alice".data [] := by
  have := c4_pipe_corruption [] "alice".data "c1".data "s | plan=basic".data 7
    (Or.inl rfl) (by decide) (by decide) (by decide) (by decide) (by decide)
    (by decide)
  exact ⟨this.1, this.2 "alice".data⟩

/-! ## Claim C9: controller frame -/

theorem update_ssh_line_rel (cid ssh l l' : Str)
    (h : update_ssh_line cid ssh l = some l') : updatedLineRel cid ssh l l' := by
  unfold update_ssh_line at h
  cases hg : (splitOn '|' l).get? 1 with
  | none => rw [hg] at h; exact Option.noConfusion h
  | some second =>
    rw [hg] at h
    have h2 : (if second = cid then
        (match splitOn '|' l with
         | [a, b, _, d] => some (joinSep '|' [a, b, ssh, d])
         | _ => some l)
        else some l) = some l' := h
    clear h
    rename' h2 => h
    by_cases hsc : second = cid
    · rw [if_pos hsc] at h
      cases hsp : splitOn '|' l with
      | nil => rw [hsp] at hg; simp at hg
      | cons a t1 =>
        cases t1 with
        | nil => rw [hsp] at hg; simp at hg
        | cons b t2 =>
          have hb : b = second := by
            rw [hsp] at hg
            simpa using hg
          cases t2 with
          | nil =>
            rw [hsp] at h
            right
            refine ⟨(Option.some.inj h).symm, ?_⟩
            rintro ⟨a', b', c', d', hs, -⟩
            rw [hsp] at hs
            simp at hs
          | cons c t3 =>
            cases t3 with
            | nil =>
              rw [hsp] at h
              right
              refine ⟨(Option.some.inj h).symm, ?_⟩
              rintro ⟨a', b', c', d', hs, -⟩
              rw [hsp] at hs
              simp at hs
            | cons d t4 =>
              cases t4 with
              | nil =>
                rw [hsp] at h
                left
                exact ⟨a, b, c, d, hsp, hb.trans hsc,
                  (Option.some.inj h).symm⟩
              | cons e t5 =>
                rw [hsp] at h
                right
                refine ⟨(Option.some.inj h).symm, ?_⟩
                rintro ⟨a', b', c', d', hs, -⟩
                rw [hsp] at hs
                simp at hs
    · rw [if_neg hsc] at h
      right
      refine ⟨(Option.some.inj h).symm, ?_⟩
      rintro ⟨a', b', c', d', hs, hbc⟩
      rw [hs] at hg
      simp only [List.get?] at hg
      exact hsc ((Option.some.inj hg) ▸ hbc)

theorem update_ssh_forall₂ (cid ssh : Str) : ∀ (lines new : List Str),
    update_ssh cid ssh lines = some new →
    List.Forall₂ (updatedLineRel cid ssh) lines new := by
  intro lines
  induction lines with
  | nil =>
    intro new h
    unfold update_ssh at h
    obtain rfl := (Option.some.inj h).symm
    exact List.Forall₂.nil
  | cons l ls ih =>
    intro new h
    unfold update_ssh at h
    cases hl : update_ssh_line cid ssh l with
    | none => rw [hl] at h; exact Option.noConfusion h
    | some l' =>
      rw [hl] at h
      cases hrest : update_ssh cid ssh ls with
      | none => rw [hrest] at h; exact Option.noConfusion h
      | some rest =>
        rw [hrest] at h
        simp only [Option.map_some'] at h
        obtain rfl := (Option.some.inj h).symm
        exact List.Forall₂.cons (update_ssh_line_rel cid ssh l l' hl)
          (ih rest hrest)

/-- C9: the rewrite loop shared by start/restart/regen-ssh replaces only the
connection-string field of the 4-field lines whose instance id matches,
keeping owner, instance id and created_at, and keeps every other line
byte-identical; start/restart/regen-ssh write exactly that rewritten store;
stop never writes the store. -/
theorem c9_controller_frame :
    (∀ (cid ssh : Str) (lines new : List Str),
      update_ssh cid ssh lines = some new →
      List.Forall₂ (updatedLineRel cid ssh) lines new) ∧
    (∀ content user name, (cmd_stop content user name).1 = content) ∧
    (∀ content user name ssh cid st,
      find_container_for_user_by_name content user name = some cid →
      cmd_start content user name (some ssh) = some st →
      ∃ newLines,
        update_ssh cid ssh (read_database_lines content) = some newLines ∧
        st.1 = write_database_lines newLines) ∧
    (∀ content user name ssh cid st,
      find_container_for_user_by_name content user name = some cid →
      cmd_restart content user name (some ssh) = some st →
      ∃ newLines,
        update_ssh cid ssh (read_database_lines content) = some newLines ∧
        st.1 = write_database_lines newLines) ∧
    (∀ content user name ssh cid st,
      find_container_for_user_by_name content user name = some cid →
      cmd_regen_ssh content user name (some ssh) = some st →
      ∃ newLines,
        update_ssh cid ssh (read_database_lines content) = some newLines ∧
        st.1 = write_database_lines newLines) := by
  refine ⟨update_ssh_forall₂, ?_, ?_, ?_, ?_⟩
  · intro content user name
    unfold cmd_stop
    cases find_container_for_user_by_name content user name <;> rfl
  · intro content user name ssh cid st hfind hcmd
    unfold cmd_start at hcmd
    rw [hfind] at hcmd
    rcases Option.map_eq_some'.mp hcmd with ⟨ls, hls, hst⟩
    exact ⟨ls, hls, by rw [← hst]⟩
  · intro content user name ssh cid st hfind hcmd
    unfold cmd_restart at hcmd
    rw [hfind] at hcmd
    rcases Option.map_eq_some'.mp hcmd with ⟨ls, hls, hst⟩
    exact ⟨ls, hls, by rw [← hst]⟩
  · intro content user name ssh cid st hfind hcmd
    unfold cmd_regen_ssh at hcmd
    rw [hfind] at hcmd
    rcases Option.map_eq_some'.mp hcmd with ⟨ls, hls, hst⟩
    exact ⟨ls, hls, by rw [← hst]⟩

/-- C9 witness: a concrete two-line store, rewriting record `c1`. -/
theorem c9_controller_frame_witness :
    List.Forall₂ (updatedLineRel "c1".data "s2".data)
      ["u|c1|s1|5".data, "v|c2|sB|6".data]
      ["u|c1|s2|5".data, "v|c2|sB|6".data] ∧
    (cmd_stop "u|c1|s1|5\n".data "u".data "c1".data).1 = "u|c1|s1|5\n".data :=
  ⟨c9_controller_frame.1 "c1".data "s2".data
      ["u|c1|s1|5".data, "v|c2|sB|6".data]
      ["u|c1|s2|5".data, "v|c2|sB|6".data] (by decide),
   c9_controller_frame.2.1 "u|c1|s1|5\n".data "u".data "c1".data⟩

/-! ## Claim C10: removal paths crash on a line without a separator -/

theorem get?_one_eq_none (l : Str) (h : '|' ∉ l) :
    (splitOn '|' l).get? 1 = none := by
  rw [splitOn_eq_single '|' l h]
  rfl

theorem remove_lines_none (cid : Str) : ∀ lines : List Str,
    (∃ l ∈ lines, '|' ∉ l) → remove_lines cid lines = none := by
  intro lines
  induction lines with
  | nil => rintro ⟨l, hl, -⟩; simp at hl
  | cons x xs ih =>
    rintro ⟨l, hl, hp⟩
    rcases List.mem_cons.mp hl with rfl | hl
    · unfold remove_lines
      rw [get?_one_eq_none l hp]
    · unfold remove_lines
      cases hg : (splitOn '|' x).get? 1 with
      | none => rfl
      | some second =>
        rw [ih ⟨l, hl, hp⟩]

theorem remain_lines_none (removed : List (Str × Str × Str)) :
    ∀ lines : List Str,
    (∃ l ∈ lines, '|' ∉ l) → remain_lines removed lines = none := by
  intro lines
  induction lines with
  | nil => rintro ⟨l, hl, -⟩; simp at hl
  | cons x xs ih =>
    rintro ⟨l, hl, hp⟩
    rcases List.mem_cons.mp hl with rfl | hl
    · unfold remain_lines
      rw [get?_one_eq_none l hp]
    · unfold remain_lines
      cases hg : (splitOn '|' x).get? 1 with
      | none => rfl
      | some second =>
        rw [ih ⟨l, hl, hp⟩]

/-- C10: on a store containing a line with no `|` at all,
`remove_from_database_by_container` raises (modelled `none`), and a sweeper
run that found at least one expired record raises in its batch-removal
filter (modelled `none`); the record reader, in contrast, just skips such a
line (concrete contrast instance included). -/
theorem c10_removal_totality :
    (∀ content cid, (∃ l ∈ read_database_lines content, '|' ∉ l) →
      remove_from_database_by_container content cid = none) ∧
    (∀ (content : Str) (now : Int),
      (∃ l ∈ read_database_lines content, '|' ∉ l) →
      scan_expired now (read_database_lines content) ≠ [] →
      cleanup_old_instances content now = none) ∧
    remove_from_database_by_container "u|c|s|0\ngarbage\n".data "c".data
      = none ∧
    get_user_servers "u".data "u|c|s|0\ngarbage\n".data
      = [("c".data, "s".data, 0)] := by
  refine ⟨?_, ?_, by decide, by decide⟩
  · intro content cid hbad
    unfold remove_from_database_by_container
    rw [remove_lines_none cid _ hbad]
    rfl
  · intro content now hbad hscan
    have hlne : ¬ read_database_lines content = [] := by
      rcases hbad with ⟨l, hl, -⟩
      intro he
      rw [he] at hl
      simp at hl
    simp only [cleanup_old_instances]
    rw [if_neg hlne, if_neg hscan, remain_lines_none _ _ hbad]

/-- C10 witness: the sweeper path at a concrete store with one expired
record and one separator-free line. -/
theorem c10_removal_totality_witness :
    cleanup_old_instances "u|c|s|0\ngarbage\n".data 2592001 = none :=
  c10_removal_totality.2.1 "u|c|s|0\ngarbage\n".data 2592001 (by decide)
    (by decide)

/-! ## Claim C5: sweeper postcondition -/

theorem get?_one_of_len4 (l : Str) (h : (splitOn '|' l).length = 4) :
    (splitOn '|' l).get? 1 ≠ none := by
  intro he
  rw [List.get?_eq_none] at he
  omega

theorem expired_record?_get? (now : Int) (l : Str) (r : Str × Str × Str)
    (h : expired_record? now l = some r) :
    (splitOn '|' l).get? 1 = some r.2.1 := by
  unfold expired_record? at h
  cases hsp : splitOn '|' l with
  | nil => rw [hsp] at h; exact Option.noConfusion h
  | cons a t1 =>
    cases t1 with
    | nil => rw [hsp] at h; exact Option.noConfusion h
    | cons b t2 =>
      cases t2 with
      | nil => rw [hsp] at h; exact Option.noConfusion h
      | cons c t3 =>
        cases t3 with
        | nil => rw [hsp] at h; exact Option.noConfusion h
        | cons d t4 =>
          cases t4 with
          | nil =>
            rw [hsp] at h
            have h2 : (if INSTANCE_TTL_SECONDS ≤ now - (int? d).getD 0
                then some (a, b, c) else none) = some r := h
            split at h2
            · obtain rfl := (Option.some.inj h2).symm
              rfl
            · exact Option.noConfusion h2
          | cons e t5 => rw [hsp] at h; exact Option.noConfusion h

theorem remain_lines_eq (removed : List (Str × Str × Str)) :
    ∀ lines : List Str, (∀ l ∈ lines, (splitOn '|' l).get? 1 ≠ none) →
    remain_lines removed lines = some (lines.filter (fun l =>
      !(removed.any (fun r =>
        decide ((splitOn '|' l).get? 1 = some r.2.1))))) := by
  intro lines
  induction lines with
  | nil => intro _; rfl
  | cons x xs ih =>
    intro h
    have hx := h x (List.mem_cons_self x xs)
    unfold remain_lines
    cases hg : (splitOn '|' x).get? 1 with
    | none => exact absurd hg hx
    | some second =>
      rw [ih (fun l hl => h l (List.mem_cons_of_mem x hl))]
      rw [List.filter_cons]
      simp only [hg, Option.some.injEq]
      by_cases hany : (removed.any (fun r => decide (second = r.2.1))) = true
      · simp [hany]
      · simp [hany]

theorem drop_iff_expired (now : Int) (lines : List Str)
    (hnodup : (lines.map (fun l => (splitOn '|' l).get? 1)).Nodup)
    (l : Str) (hl : l ∈ lines) :
    (scan_expired now lines).any
        (fun r => decide ((splitOn '|' l).get? 1 = some r.2.1)) = true ↔
      expired_record? now l ≠ none := by
  constructor
  · intro hany
    rcases List.any_eq_true.mp hany with ⟨r, hr, hp⟩
    have hp' := of_decide_eq_true hp
    rcases List.mem_filterMap.mp hr with ⟨l', hl', hexp⟩
    have hsec := expired_record?_get? now l' r hexp
    have heq : l' = l :=
      List.inj_on_of_nodup_map hnodup hl' hl (by rw [hsec, hp'])
    rw [← heq, hexp]
    simp
  · intro hne
    cases hexp : expired_record? now l with
    | none => exact absurd hexp hne
    | some r =>
      apply List.any_eq_true.mpr
      exact ⟨r, List.mem_filterMap.mpr ⟨l, hl, hexp⟩,
        decide_eq_true (expired_record?_get? now l r hexp)⟩

/-- C5: a sweeper run on a well-formed store (every line has 4 fields,
instance ids pairwise distinct) removes exactly the records whose age
`now - created_at` is at least the TTL (`>=`, so age = TTL is expired),
issues `docker stop` and `docker rm -f` per expired record during the scan,
rewrites the store exactly once afterwards with exactly the non-expired
lines, and then emits one owner notification and one audit notification per
removed record. -/
theorem c5_sweeper_postcondition (content : Str) (now : Int)
    (hwf : ∀ l ∈ read_database_lines content, (splitOn '|' l).length = 4)
    (hnodup : ((read_database_lines content).map
      (fun l => (splitOn '|' l).get? 1)).Nodup) :
    cleanup_old_instances content now =
      some
        ((if scan_expired now (read_database_lines content) = [] then content
          else write_database_lines ((read_database_lines content).filter
            (fun l => (expired_record? now l).isNone))),
         (scan_expired now (read_database_lines content)).flatMap
             (fun r => [Event.dockerStop r.2.1, Event.destroy r.2.1]) ++
           (if scan_expired now (read_database_lines content) = [] then []
            else Event.rewrite (write_database_lines
                ((read_database_lines content).filter
                  (fun l => (expired_record? now l).isNone))) ::
              (scan_expired now (read_database_lines content)).flatMap
                (fun r => [Event.notifyOwner r.1 r.2.1 r.2.2,
                  Event.notifyAudit r.1 r.2.1 r.2.2]))) := by
  simp only [cleanup_old_instances]
  by_cases hnil : read_database_lines content = []
  · rw [if_pos hnil, hnil]
    simp [scan_expired]
  · rw [if_neg hnil]
    by_cases hrem : scan_expired now (read_database_lines content) = []
    · rw [if_pos hrem, hrem]
      simp
    · rw [if_neg hrem]
      have hkey : remain_lines (scan_expired now (read_database_lines content))
          (read_database_lines content) =
          some ((read_database_lines content).filter
            (fun l => (expired_record? now l).isNone)) := by
        rw [remain_lines_eq _ _ (fun l hl => get?_one_of_len4 l (hwf l hl))]
        congr 1
        apply List.filter_congr
        intro l hl
        have hiff := drop_iff_expired now (read_database_lines content)
          hnodup l hl
        cases hexp : expired_record? now l with
        | none =>
          have hf : (scan_expired now (read_database_lines content)).any
              (fun r => decide ((splitOn '|' l).get? 1 = some r.2.1))
              = false := by
            rw [Bool.eq_false_iff]
            intro hc
            exact (hiff.mp hc) hexp
          rw [hf]
          rfl
        | some r =>
          have ht : (scan_expired now (read_database_lines content)).any
              (fun r => decide ((splitOn '|' l).get? 1 = some r.2.1))
              = true := hiff.mpr (by simp [hexp])
          rw [ht]
          rfl
      rw [hkey, if_neg hrem, if_neg hrem]

/-- C5 witness: two records, one exactly at the TTL boundary (expired), one
one second younger (kept). -/
theorem c5_sweeper_postcondition_witness :
    cleanup_old_instances "a|c1|s1|100\nb|c2|s2|101\n".data 2592100 =
      some ("b|c2|s2|101\n".data,
        [Event.dockerStop "c1".data, Event.destroy "c1".data,
         Event.rewrite "b|c2|s2|101\n".data,
         Event.notifyOwner "a".data "c1".data "s1".data,
         Event.notifyAudit "a".data "c1".data "s1".data]) := by
  have h := c5_sweeper_postcondition "a|c1|s1|100\nb|c2|s2|101\n".data 2592100
    (by decide) (by decide)
  exact h.trans (by decide)

end Botup
